import Mathlib

/-!
Verification of the resilient streaming client of `gotify-desktop`
(`src/gotify.rs`, `src/main.rs`).

The Rust client is embedded shallowly:

* `Message`, `AppInfo` mirror the serde structs of `src/gotify.rs`.
* `St` is the mutable state of `gotify::Client` that the verified claims
  observe: the app-image cache `app_imgs`, the shared `last_msg_id`, plus an
  explicit model of the local filesystem (the set of existing cache files)
  and a counter of HTTP requests issued.
* `Env` is the oracle for the companion HTTP API: the decoded response of
  `GET /application`, of `GET /message?limit=200`, the outcome of an image
  download, and the `xdg` cache-file placement.  Each endpoint may fail,
  modelling transport/HTTP/decode errors.
* Every fallible Rust function returns `Except GErr α × St`: the error value
  together with the state as left behind by the partial execution (matching
  `&mut self` semantics under `?` early return).
-/

/-- Local filesystem path (Rust `PathBuf`). -/
abbrev FPath := String

/-- Gotify message (`struct Message` of `src/gotify.rs`). -/
structure Message where
  /-- Gotify id -/
  id : Int
  /-- App id -/
  appid : Int
  /-- Message text (serde-renamed from `message`) -/
  text : String
  /-- Message title -/
  title : String
  /-- Message priority -/
  priority : Int
  /-- Message date and time -/
  date : String
  /-- App image filepath (`#[serde(skip)]`, filled by the resource cache) -/
  app_img_filepath : Option FPath
  deriving Repr, DecidableEq

/-- Gotify app metadata (`struct AppInfo` of `src/gotify.rs`). -/
structure AppInfo where
  /-- unused -/
  description : String
  /-- App id -/
  id : Int
  /-- Image URL -/
  image : String
  /-- unused -/
  internal : Bool
  /-- App name -/
  name : String
  /-- unused -/
  token : String
  deriving Repr, DecidableEq

/-- Kind of an `std::io::Error`, as inspected by `get_message`. -/
inductive ErrKind where
  /-- `ErrorKind::Interrupted` -/
  | interrupted : ErrKind
  /-- any other kind -/
  | otherKind : Nat → ErrKind
  deriving Repr, DecidableEq

/-- `tungstenite::error::ProtocolError`, as inspected by `get_message`. -/
inductive ProtoErr where
  /-- `ProtocolError::ResetWithoutClosingHandshake` -/
  | resetWithoutClosingHandshake : ProtoErr
  /-- any other protocol error -/
  | otherProto : Nat → ProtoErr
  deriving Repr, DecidableEq

/-- `tungstenite::Error` as returned by `ws.read()` / `ws.flush()`. -/
inductive WsErr where
  /-- `tungstenite::Error::Protocol` -/
  | protocol : ProtoErr → WsErr
  /-- any other tungstenite error -/
  | otherWs : Nat → WsErr
  deriving Repr, DecidableEq

/-- Model of `anyhow::Error` as produced by the client: the variants record
which source error was wrapped, so that the `downcast_ref::<NeedsReconnect>`
of `main.rs` is observable. -/
inductive GErr where
  /-- `NeedsReconnect::Io` (interrupted poll), line 274 of `src/gotify.rs` -/
  | reconnectPoll : ErrKind → GErr
  /-- `NeedsReconnect::Protocol` (peer reset without closing handshake) -/
  | reconnectProto : ProtoErr → GErr
  /-- a plain poll error propagated by `poll_res?` -/
  | pollErr : ErrKind → GErr
  /-- a plain websocket error propagated by `read_res?` or `flush()?` -/
  | wsErr : WsErr → GErr
  /-- `bail!("Unexpected message type")` -/
  | unexpectedMsgType : GErr
  /-- a `serde_json` decode failure -/
  | decodeErr : GErr
  /-- an HTTP request failure (transport, status, or JSON decode) -/
  | requestErr : GErr
  /-- `anyhow!("Invalid image URL")` -/
  | invalidImgUrl : GErr
  deriving Repr, DecidableEq

/-- Does `e.downcast_ref::<NeedsReconnect>()` succeed (main.rs line 120)? -/
def GErr.isNeedsReconnect : GErr → Bool
  | .reconnectPoll _ => true
  | .reconnectProto _ => true
  | _ => false

/-- Client state observed by the claims: `app_imgs` cache (association list,
most recent insertion first, like `HashMap` lookup), the shared `last_msg_id`,
the set of files existing in the local cache directory, and the number of
HTTP requests issued so far. -/
structure St where
  /-- App image cache (`HashMap<i64, Option<PathBuf>>`) -/
  app_imgs : List (Int × Option FPath)
  /-- Last received Gotify message id (`Rc<RefCell<Option<i64>>>`) -/
  last_msg_id : Option Int
  /-- Files currently existing on disk (`Path::is_file`) -/
  fs : List FPath
  /-- Number of HTTP requests issued (`send_request` invocations) -/
  netCalls : Nat
  deriving Repr, DecidableEq

/-- Companion HTTP API oracle: what each endpoint answers during the run.
`Except Unit` failure stands for any transport / HTTP-status / decode error
of `send_request` / `send_api_request`. -/
structure Env where
  /-- Decoded `GET /application` response -/
  apps : Except Unit (List AppInfo)
  /-- Decoded `GET /message?limit=200` response (`AllMessages.messages`) -/
  messages : Except Unit (List Message)
  /-- Outcome of downloading the image bytes at a relative URL -/
  imgDownload : String → Except Unit Unit
  /-- `xdg_dirs.place_cache_file`: maps a cache filename to its full path -/
  placeCacheFile : String → FPath
  deriving Inhabited

/-- Rust `Path::new(url).file_name()`: final nonempty path segment, `none`
for an empty path or one ending in `..` or `.`. -/
def fileNameOf (s : String) : Option String :=
  match ((s.splitOn "/").filter (fun c => c ≠ "")).getLast? with
  | some c => if c = ".." ∨ c = "." then none else some c
  | none => none

/-- Record one HTTP request on the state. -/
def St.bump (st : St) : St :=
  { st with netCalls := st.netCalls + 1 }

/-- Embeds `Client::app_img_url` (src/gotify.rs lines 381-393): one
`GET /application` request, find the app by id, return its image URL if
nonempty. -/
def appImgUrl (env : Env) (appId : Int) (st : St) :
    Except GErr (Option String) × St :=
  match env.apps with
  | .error _ => (.error .requestErr, st.bump)
  | .ok apps =>
    match apps.find? (fun a => a.id = appId) with
    | some a => (.ok (if a.image = "" then none else some a.image), st.bump)
    | none => (.ok none, st.bump)

/-- Embeds `Client::download_app_img` (src/gotify.rs lines 396-415): resolve
the relative URL (re-querying metadata when not supplied), then download the
bytes and write the file; returns whether an image was downloaded. -/
def downloadAppImg (env : Env) (appId : Int) (imageRelUrl : Option String)
    (imgFilepath : FPath) (st : St) : Except GErr Bool × St :=
  match
    (match imageRelUrl with
     | some v => (Except.ok (some v), st)
     | none => appImgUrl env appId st) with
  | (.error e, st1) => (.error e, st1)
  | (.ok none, st1) => (.ok false, st1)
  | (.ok (some relUrl), st1) =>
    match env.imgDownload relUrl with
    | .error _ => (.error .requestErr, st1.bump)
    | .ok _ => (.ok true, { st1.bump with fs := imgFilepath :: st1.bump.fs })

/-- Embeds the `// Cache miss` arm of `Client::set_message_app_img`
(src/gotify.rs lines 352-374): query the app metadata for an image URL,
derive the cache filename from its final path segment, place the cache file,
download it if absent, and record the new cache entry. -/
def cacheMissResolve (env : Env) (msg : Message) (st : St) :
    Except GErr Message × St :=
  match appImgUrl env msg.appid st with
  | (.error e, st1) => (.error e, st1)
  | (.ok none, st1) =>
    (.ok { msg with app_img_filepath := none },
     { st1 with app_imgs := (msg.appid, none) :: st1.app_imgs })
  | (.ok (some relUrl), st1) =>
    match fileNameOf relUrl with
    | none => (.error .invalidImgUrl, st1)
    | some cacheFilename =>
      if env.placeCacheFile cacheFilename ∈ st1.fs then
        (.ok { msg with app_img_filepath := some (env.placeCacheFile cacheFilename) },
         { st1 with
             app_imgs :=
               (msg.appid, some (env.placeCacheFile cacheFilename)) :: st1.app_imgs })
      else
        match
          downloadAppImg env msg.appid (some relUrl)
            (env.placeCacheFile cacheFilename) st1 with
        | (.error e, st2) => (.error e, st2)
        | (.ok downloaded, st2) =>
          (.ok { msg with
                   app_img_filepath :=
                     if downloaded then some (env.placeCacheFile cacheFilename)
                     else none },
           { st2 with
               app_imgs :=
                 (msg.appid,
                   if downloaded then some (env.placeCacheFile cacheFilename)
                   else none) :: st2.app_imgs })

/-- Embeds `Client::set_message_app_img` (src/gotify.rs lines 331-378):
resolve the app image through the cache and set `msg.app_img_filepath`. -/
def setMessageAppImg (env : Env) (msg : Message) (st : St) :
    Except GErr Message × St :=
  match st.app_imgs.lookup msg.appid with
  | some (some cachedPath) =>
    -- Cache hit, has file
    if cachedPath ∈ st.fs then
      (.ok { msg with app_img_filepath := some cachedPath }, st)
    else
      -- File has been removed, try to download it again
      match downloadAppImg env msg.appid none cachedPath st with
      | (.error e, st1) => (.error e, st1)
      | (.ok downloaded, st1) =>
        (.ok { msg with
                 app_img_filepath :=
                   if downloaded then some cachedPath else none }, st1)
  | some none =>
    -- Cache hit, has no file
    (.ok { msg with app_img_filepath := none }, st)
  | none =>
    -- Cache miss
    cacheMissResolve env msg st

/-- The enrichment loop of `get_missed_messages` (src/gotify.rs lines
253-255): run `set_message_app_img` over each message in order, stopping at
the first error. -/
def enrichAll (env : Env) : List Message → St → Except GErr (List Message) × St
  | [], st => (.ok [], st)
  | m :: ms, st =>
    match setMessageAppImg env m st with
    | (.error e, st) => (.error e, st)
    | (.ok m, st) =>
      match enrichAll env ms st with
      | (.error e, st) => (.error e, st)
      | (.ok ms, st) => (.ok (m :: ms), st)

/-- Embeds `Client::get_missed_messages` (src/gotify.rs lines 231-262):
if a last message id exists, fetch the recent messages, keep those with a
strictly greater id, reverse them, enrich each with its app image, and
advance `last_msg_id` to the id of the final element of the result. -/
def getMissedMessages (env : Env) (st : St) :
    Except GErr (List Message) × St :=
  match
    (match st.last_msg_id with
     | some lastMsgId =>
       (match env.messages with
        | .error _ => (Except.error GErr.requestErr, st.bump)
        | .ok allMessages =>
          (Except.ok
            ((allMessages.filter (fun m : Message => lastMsgId < m.id)).reverse),
           st.bump))
     | none => (Except.ok [], st)) with
  | (.error e, st1) => (.error e, st1)
  | (.ok missed, st1) =>
    match enrichAll env missed st1 with
    | (.error e, st2) => (.error e, st2)
    | (.ok missed, st2) =>
      match missed.getLast? with
      | some lastMsg =>
        (.ok missed, { st2 with last_msg_id := some lastMsg.id })
      | none => (.ok missed, st2)

/-- Websocket frame as returned by `ws.read()`.  JSON decoding of a text
frame's payload is abstracted as the decode outcome carried by the frame. -/
inductive WsMsg where
  /-- a text frame together with the `serde_json::from_str` outcome of its
  payload -/
  | text : Except Unit Message → WsMsg
  /-- a ping frame -/
  | ping : WsMsg
  /-- any other frame type (binary, pong, close, frame) -/
  | otherFrame : Nat → WsMsg

/-- Inputs consumed by one iteration of the `get_message` loop: the outcome
of `poller.poll` (on success, whether the event set is nonempty), the outcome
of `ws.read()`, and the outcome of the `ws.flush()` issued on a ping. -/
structure LoopInput where
  /-- `poller.poll(&mut poller_events, None)`; `ok b` means success with
  `b = !poller_events.is_empty()` -/
  poll : Except ErrKind Bool
  /-- `ws.read()` outcome -/
  read : Except WsErr WsMsg
  /-- `ws.flush()` outcome (used only on a ping frame) -/
  flush : Except WsErr Unit

/-- Outcome of one iteration of the `get_message` loop. -/
inductive StepOut where
  /-- the loop `continue`s -/
  | next : StepOut
  /-- the loop returns -/
  | done : Except GErr Message → StepOut

/-- Embeds one iteration of the loop of `Client::get_message`
(src/gotify.rs lines 266-316): poll, classify poll errors, skip empty event
sets, read a frame, classify read errors, handle text / ping / other frames,
decode, enrich, record `last_msg_id`, return. -/
def getMessageStep (env : Env) (inp : LoopInput) (st : St) : StepOut × St :=
  match inp.poll with
  | .error k =>
    if k = ErrKind.interrupted then
      (.done (.error (.reconnectPoll k)), st)
    else
      (.done (.error (.pollErr k)), st)
  | .ok false => (.next, st)
  | .ok true =>
    match inp.read with
    | .error (.protocol .resetWithoutClosingHandshake) =>
      (.done (.error (.reconnectProto .resetWithoutClosingHandshake)), st)
    | .error e => (.done (.error (.wsErr e)), st)
    | .ok wsMsg =>
      match wsMsg with
      | .text decodeRes =>
        match decodeRes with
        | .error _ => (.done (.error .decodeErr), st)
        | .ok msg =>
          match setMessageAppImg env msg st with
          | (.error e, st) => (.done (.error e), st)
          | (.ok msg, st) =>
            (.done (.ok msg), { st with last_msg_id := some msg.id })
      | .ping =>
        match inp.flush with
        | .error e => (.done (.error (.wsErr e)), st)
        | .ok _ => (.next, st)
      | .otherFrame _ => (.done (.error .unexpectedMsgType), st)

/-- Embeds `Client::get_message` as a loop over a finite list of iteration
inputs; `none` means the input list was exhausted with the loop still
blocked (the Rust loop would keep waiting). -/
def getMessage (env : Env) : List LoopInput → St → Option (Except GErr Message) × St
  | [], st => (none, st)
  | inp :: rest, st =>
    match getMessageStep env inp st with
    | (.next, st) => getMessage env rest st
    | (.done r, st) => (some r, st)

/-- Delay (in milliseconds, exact rational) before retry number `n + 1` of
the connect loop, as configured in `Client::connect` (src/gotify.rs lines
129-141): `backon::ExponentialBuilder` with factor 1.5, min delay 250 ms,
max delay 60 s, no jitter, no attempt bound.  The first delay is the min
delay and each later delay is the previous one times 1.5, capped at 60 s. -/
def backoffDelay : Nat → ℚ
  | 0 => 250
  | n + 1 => min (backoffDelay n * (3 / 2)) 60000

/-- Embeds the retry loop of `Client::connect` over a finite list of
attempt outcomes (`true` = `try_connect` succeeded).  Returns the list of
delays slept before the first success, or `none` when every attempt in the
list failed (the Rust loop would retry forever).  The counter `n` is the
number of failures so far. -/
def connectRun : List Bool → Nat → Option (List ℚ)
  | [], _ => none
  | b :: rest, n =>
    if b then some []
    else (connectRun rest (n + 1)).map (fun ds => backoffDelay n :: ds)

/-- One phase of a client session as driven by `main.rs`: a catch-up call
(`get_missed_messages`) or a live-read call (`get_message` consuming the
given loop inputs).  Each phase carries the API oracle in force while it
runs. -/
inductive SessionStep where
  /-- a `get_missed_messages` call -/
  | catchUp : Env → SessionStep
  /-- a `get_message` call consuming the given loop inputs -/
  | live : Env → List LoopInput → SessionStep

/-- Run one session phase, returning the identifiers delivered to the caller
by that phase (failed phases deliver nothing). -/
def runStep (step : SessionStep) (st : St) : List Int × St :=
  match step with
  | .catchUp env =>
    match getMissedMessages env st with
    | (.ok msgs, st) => (msgs.map (fun m => m.id), st)
    | (.error _, st) => ([], st)
  | .live env inps =>
    match getMessage env inps st with
    | (some (.ok msg), st) => ([msg.id], st)
    | (some (.error _), st) => ([], st)
    | (none, st) => ([], st)

/-- Run a session trace, concatenating the identifiers delivered to the
caller. -/
def runSession : List SessionStep → St → List Int × St
  | [], st => ([], st)
  | step :: rest, st =>
    let (ds, st1) := runStep step st
    let (rest_ds, st2) := runSession rest st1
    (ds ++ rest_ds, st2)

/-- Server-side events mentioned by a session step: the messages of a
catch-up response and the successfully decoded text frames of a live phase. -/
def stepEvents : SessionStep → List Message
  | .catchUp env =>
    match env.messages with
    | .ok msgs => msgs
    | .error _ => []
  | .live _ inps =>
    inps.filterMap (fun inp =>
      match inp.read with
      | .ok (.text (.ok msg)) => some msg
      | _ => none)

/-- Server-side events mentioned by a session trace. -/
def traceEvents (trace : List SessionStep) : List Message :=
  trace.flatMap stepEvents

/-- The identifier-no-reuse assumption of the spec: two events of the trace
carrying the same identifier are the same event. -/
def NoIdReuse (trace : List SessionStep) : Prop :=
  ∀ m₁ ∈ traceEvents trace, ∀ m₂ ∈ traceEvents trace, m₁.id = m₂.id → m₁ = m₂

/-- Messages agree on every transmitted field (everything except the
locally-filled `app_img_filepath`). -/
def sameCore (a b : Message) : Prop :=
  a.id = b.id ∧ a.appid = b.appid ∧ a.text = b.text ∧ a.title = b.title ∧
    a.priority = b.priority ∧ a.date = b.date

/-! ## State-preservation lemmas -/

/-- An `app_img_url` call leaves everything but the request counter alone. -/
theorem appImgUrl_snd (env : Env) (appId : Int) (st : St) :
    (appImgUrl env appId st).2 = st.bump := by
  unfold appImgUrl
  split
  · rfl
  · split <;> rfl

/-- A `download_app_img` call never touches the cache map nor the last
message id. -/
theorem downloadAppImg_snd (env : Env) (appId : Int) (url : Option String)
    (p : FPath) (st : St) :
    ((downloadAppImg env appId url p st).2).app_imgs = st.app_imgs ∧
      ((downloadAppImg env appId url p st).2).last_msg_id = st.last_msg_id := by
  cases url with
  | some v =>
    simp only [downloadAppImg]
    cases h : env.imgDownload v with
    | error e => simp [h, St.bump]
    | ok u => simp [h, St.bump]
  | none =>
    have hsnd := appImgUrl_snd env appId st
    unfold downloadAppImg
    cases h : appImgUrl env appId st with
    | mk r st1 =>
      rw [h] at hsnd
      simp only at hsnd
      subst hsnd
      cases r with
      | error e => simp [St.bump]
      | ok o =>
        cases o with
        | none => simp [St.bump]
        | some relUrl =>
          cases h2 : env.imgDownload relUrl with
          | error e => simp [h2, St.bump]
          | ok u => simp [h2, St.bump]

/-- A cache-miss resolution succeeds with the message's filepath recorded as
the new cache entry for its app id, a filepath that is either absent or a
file existing afterwards, and only the image filepath of the message
changed. -/
theorem cacheMissResolve_ok (env : Env) (msg r : Message) (st st2 : St)
    (h : cacheMissResolve env msg st = (.ok r, st2)) :
    st2.app_imgs = (msg.appid, r.app_img_filepath) :: st.app_imgs ∧
      (r.app_img_filepath = none ∨
        ∃ p, r.app_img_filepath = some p ∧ p ∈ st2.fs) ∧
      (∃ x, r = { msg with app_img_filepath := x }) ∧
      st2.last_msg_id = st.last_msg_id := by
  unfold cacheMissResolve at h
  have hsnd := appImgUrl_snd env msg.appid st
  cases ha : appImgUrl env msg.appid st with
  | mk ares st1 =>
    rw [ha] at h hsnd
    simp only at hsnd
    subst hsnd
    cases ares with
    | error e => simp at h
    | ok o =>
      cases o with
      | none =>
        simp only at h
        cases h
        refine ⟨rfl, Or.inl rfl, ⟨none, rfl⟩, rfl⟩
      | some relUrl =>
        simp only at h
        cases hfn : fileNameOf relUrl with
        | none => rw [hfn] at h; simp at h
        | some fname =>
          rw [hfn] at h
          simp only at h
          by_cases hf : env.placeCacheFile fname ∈ (st.bump).fs
          · rw [if_pos hf] at h
            cases h
            exact ⟨rfl, Or.inr ⟨_, rfl, hf⟩, ⟨_, rfl⟩, rfl⟩
          · rw [if_neg hf] at h
            have hdl := downloadAppImg_snd env msg.appid (some relUrl)
              (env.placeCacheFile fname) st.bump
            cases hd : downloadAppImg env msg.appid (some relUrl)
                (env.placeCacheFile fname) st.bump with
            | mk dres dst =>
              rw [hd] at h hdl
              cases dres with
              | error e => simp at h
              | ok b =>
                simp only at h
                cases b with
                | false =>
                  cases h
                  exact ⟨by simpa using hdl.1, Or.inl rfl, ⟨_, rfl⟩,
                    by simpa using hdl.2⟩
                | true =>
                  -- a download with a known URL writes the file
                  have hfs : env.placeCacheFile fname ∈ dst.fs := by
                    unfold downloadAppImg at hd
                    simp only at hd
                    cases hdl2 : env.imgDownload relUrl with
                    | error e => rw [hdl2] at hd; simp at hd
                    | ok u =>
                      rw [hdl2] at hd
                      simp only at hd
                      cases hd
                      exact List.mem_cons_self _ _
                  cases h
                  exact ⟨by simpa using hdl.1, Or.inr ⟨_, rfl, hfs⟩, ⟨_, rfl⟩,
                    by simpa using hdl.2⟩

/-- A failing `app_img_url` call only ever reports a request failure. -/
theorem appImgUrl_error (env : Env) (appId : Int) (st st2 : St) (e : GErr)
    (h : appImgUrl env appId st = (.error e, st2)) : e = .requestErr := by
  unfold appImgUrl at h
  cases ha : env.apps with
  | error u => rw [ha] at h; simp only at h; cases h; rfl
  | ok apps =>
    rw [ha] at h
    simp only at h
    cases hfind : apps.find? (fun a => a.id = appId) with
    | some a => rw [hfind] at h; simp at h
    | none => rw [hfind] at h; simp at h

/-- A failing `download_app_img` call only ever reports a request failure. -/
theorem downloadAppImg_error (env : Env) (appId : Int) (url : Option String)
    (p : FPath) (st st2 : St) (e : GErr)
    (h : downloadAppImg env appId url p st = (.error e, st2)) :
    e = .requestErr := by
  unfold downloadAppImg at h
  cases url with
  | some v =>
    simp only at h
    cases hd : env.imgDownload v with
    | error u => rw [hd] at h; simp only at h; cases h; rfl
    | ok u => rw [hd] at h; simp at h
  | none =>
    simp only at h
    cases ha : appImgUrl env appId st with
    | mk ares st1 =>
      rw [ha] at h
      cases ares with
      | error e2 =>
        simp only at h
        cases h
        exact appImgUrl_error env appId st _ _ ha
      | ok o =>
        cases o with
        | none => simp at h
        | some relUrl =>
          simp only at h
          cases hd : env.imgDownload relUrl with
          | error u => rw [hd] at h; simp only at h; cases h; rfl
          | ok u => rw [hd] at h; simp at h

/-- A failing cache-miss resolution reports a request failure or an invalid
image URL. -/
theorem cacheMissResolve_error (env : Env) (msg : Message) (st st2 : St)
    (e : GErr) (h : cacheMissResolve env msg st = (.error e, st2)) :
    e = .requestErr ∨ e = .invalidImgUrl := by
  unfold cacheMissResolve at h
  cases ha : appImgUrl env msg.appid st with
  | mk ares st1 =>
    rw [ha] at h
    cases ares with
    | error e2 =>
      simp only at h
      cases h
      exact Or.inl (appImgUrl_error env msg.appid st _ _ ha)
    | ok o =>
      cases o with
      | none => simp at h
      | some relUrl =>
        simp only at h
        cases hfn : fileNameOf relUrl with
        | none => rw [hfn] at h; simp only at h; cases h; exact Or.inr rfl
        | some fname =>
          rw [hfn] at h
          simp only at h
          by_cases hf : env.placeCacheFile fname ∈ st1.fs
          · rw [if_pos hf] at h; simp at h
          · rw [if_neg hf] at h
            cases hd : downloadAppImg env msg.appid (some relUrl)
                (env.placeCacheFile fname) st1 with
            | mk dres dst =>
              rw [hd] at h
              cases dres with
              | error e2 =>
                simp only at h
                cases h
                exact Or.inl
                  (downloadAppImg_error env msg.appid _ _ st1 _ _ hd)
              | ok b => simp at h

/-- A failing `set_message_app_img` call never raises a reconnect signal. -/
theorem setMessageAppImg_error_not_reconnect (env : Env) (msg : Message)
    (st st2 : St) (e : GErr)
    (h : setMessageAppImg env msg st = (.error e, st2)) :
    e.isNeedsReconnect = false := by
  unfold setMessageAppImg at h
  cases hl : st.app_imgs.lookup msg.appid with
  | some o =>
    rw [hl] at h
    cases o with
    | some cachedPath =>
      simp only at h
      by_cases hf : cachedPath ∈ st.fs
      · rw [if_pos hf] at h; simp at h
      · rw [if_neg hf] at h
        cases hd : downloadAppImg env msg.appid none cachedPath st with
        | mk dres dst =>
          rw [hd] at h
          cases dres with
          | error e2 =>
            simp only at h
            cases h
            rw [downloadAppImg_error env msg.appid none cachedPath st _ _ hd]
            rfl
          | ok b => simp at h
    | none => simp at h
  | none =>
    rw [hl] at h
    simp only at h
    rcases cacheMissResolve_error env msg st st2 e h with h2 | h2 <;>
      rw [h2] <;> rfl

/-- The state left by `cache_miss_resolve` keeps the last message id. -/
theorem cacheMissResolve_snd_last (env : Env) (msg : Message) (st : St) :
    ((cacheMissResolve env msg st).2).last_msg_id = st.last_msg_id := by
  cases h : cacheMissResolve env msg st with
  | mk res st2 =>
    cases res with
    | ok r => exact (cacheMissResolve_ok env msg r st st2 h).2.2.2
    | error e =>
      unfold cacheMissResolve at h
      cases ha : appImgUrl env msg.appid st with
      | mk ares st1 =>
        have hsnd := appImgUrl_snd env msg.appid st
        rw [ha] at h hsnd
        simp only at hsnd
        subst hsnd
        cases ares with
        | error e2 => simp only at h; cases h; rfl
        | ok o =>
          cases o with
          | none => simp at h
          | some relUrl =>
            simp only at h
            cases hfn : fileNameOf relUrl with
            | none => rw [hfn] at h; simp only at h; cases h; rfl
            | some fname =>
              rw [hfn] at h
              simp only at h
              by_cases hf : env.placeCacheFile fname ∈ (st.bump).fs
              · rw [if_pos hf] at h; simp at h
              · rw [if_neg hf] at h
                cases hd : downloadAppImg env msg.appid (some relUrl)
                    (env.placeCacheFile fname) st.bump with
                | mk dres dst =>
                  have hdl := downloadAppImg_snd env msg.appid (some relUrl)
                    (env.placeCacheFile fname) st.bump
                  rw [hd] at h hdl
                  cases dres with
                  | error e2 =>
                    simp only at h
                    cases h
                    simpa using hdl.2
                  | ok b => simp at h

/-- A `set_message_app_img` call never touches the last message id. -/
theorem setMessageAppImg_snd_last (env : Env) (msg : Message) (st : St) :
    ((setMessageAppImg env msg st).2).last_msg_id = st.last_msg_id := by
  unfold setMessageAppImg
  cases hl : st.app_imgs.lookup msg.appid with
  | some o =>
    cases o with
    | some cachedPath =>
      simp only
      by_cases hf : cachedPath ∈ st.fs
      · rw [if_pos hf]
      · rw [if_neg hf]
        cases hd : downloadAppImg env msg.appid none cachedPath st with
        | mk dres dst =>
          have hdl := downloadAppImg_snd env msg.appid none cachedPath st
          rw [hd] at hdl
          cases dres with
          | error e2 => simpa using hdl.2
          | ok b => simpa using hdl.2
    | none => rfl
  | none => exact cacheMissResolve_snd_last env msg st

/-- A successful `set_message_app_img` only fills in the image filepath. -/
theorem setMessageAppImg_ok_shape (env : Env) (msg r : Message) (st st2 : St)
    (h : setMessageAppImg env msg st = (.ok r, st2)) :
    ∃ x, r = { msg with app_img_filepath := x } := by
  unfold setMessageAppImg at h
  cases hl : st.app_imgs.lookup msg.appid with
  | some o =>
    rw [hl] at h
    cases o with
    | some cachedPath =>
      simp only at h
      by_cases hf : cachedPath ∈ st.fs
      · rw [if_pos hf] at h; cases h; exact ⟨_, rfl⟩
      · rw [if_neg hf] at h
        cases hd : downloadAppImg env msg.appid none cachedPath st with
        | mk dres dst =>
          rw [hd] at h
          cases dres with
          | error e2 => simp at h
          | ok b => simp only at h; cases h; exact ⟨_, rfl⟩
    | none => simp only at h; cases h; exact ⟨none, rfl⟩
  | none =>
    rw [hl] at h
    simp only at h
    exact (cacheMissResolve_ok env msg r st st2 h).2.2.1

/-- The enrichment loop keeps the last message id. -/
theorem enrichAll_snd_last (env : Env) (l : List Message) (st : St) :
    ((enrichAll env l st).2).last_msg_id = st.last_msg_id := by
  induction l generalizing st with
  | nil => rfl
  | cons m ms ih =>
    unfold enrichAll
    cases h : setMessageAppImg env m st with
    | mk res st1 =>
      have h1 := setMessageAppImg_snd_last env m st
      rw [h] at h1
      cases res with
      | error e => simpa using h1
      | ok m2 =>
        simp only
        cases h2 : enrichAll env ms st1 with
        | mk res2 st2 =>
          have h3 := ih st1
          rw [h2] at h3
          cases res2 with
          | error e => simp only; rw [h3]; exact h1
          | ok ms2 => simp only; rw [h3]; exact h1

/-- A successful enrichment returns the same messages up to the locally
filled image filepath. -/
theorem enrichAll_ok_core (env : Env) (l l2 : List Message) (st st2 : St)
    (h : enrichAll env l st = (.ok l2, st2)) : List.Forall₂ sameCore l2 l := by
  induction l generalizing l2 st with
  | nil => unfold enrichAll at h; cases h; exact List.Forall₂.nil
  | cons m ms ih =>
    unfold enrichAll at h
    cases h1 : setMessageAppImg env m st with
    | mk res st1 =>
      rw [h1] at h
      cases res with
      | error e => simp at h
      | ok m2 =>
        simp only at h
        cases h2 : enrichAll env ms st1 with
        | mk res2 st3 =>
          rw [h2] at h
          cases res2 with
          | error e => simp at h
          | ok ms2 =>
            simp only at h
            cases h
            refine List.Forall₂.cons ?_ (ih ms2 st1 h2)
            obtain ⟨x, hx⟩ := setMessageAppImg_ok_shape env m m2 st st1 h1
            subst hx
            exact ⟨rfl, rfl, rfl, rfl, rfl, rfl⟩

/-- Messages related by `sameCore` have equal identifier lists. -/
theorem forall₂_sameCore_map_id (l2 l : List Message)
    (h : List.Forall₂ sameCore l2 l) :
    l2.map Message.id = l.map Message.id := by
  induction h with
  | nil => rfl
  | cons hab _ ih => simp only [List.map_cons, ih, hab.1]

/-- With no last message id, `get_missed_messages` is a no-op. -/
theorem getMissedMessages_none (env : Env) (st : St)
    (h : st.last_msg_id = none) : getMissedMessages env st = (.ok [], st) := by
  unfold getMissedMessages
  rw [h]
  rfl

/-- With a last message id and a decoded bulk response, `get_missed_messages`
filters, reverses, enriches, and advances the last id to the final element. -/
theorem getMissedMessages_some (env : Env) (st : St) (lastId : Int)
    (resp : List Message) (h1 : st.last_msg_id = some lastId)
    (h2 : env.messages = .ok resp) :
    getMissedMessages env st =
      match
        enrichAll env ((resp.filter (fun m : Message => lastId < m.id)).reverse)
          st.bump with
      | (.error e, st2) => (.error e, st2)
      | (.ok missed, st2) =>
        match missed.getLast? with
        | some lastMsg => (.ok missed, { st2 with last_msg_id := some lastMsg.id })
        | none => (.ok missed, st2) := by
  unfold getMissedMessages
  rw [h1, h2]

/-- With a last message id and a failing bulk query, `get_missed_messages`
fails with a request error after one HTTP call. -/
theorem getMissedMessages_fetch_error (env : Env) (st : St) (lastId : Int)
    (u : Unit) (h1 : st.last_msg_id = some lastId)
    (h2 : env.messages = .error u) :
    getMissedMessages env st = (.error .requestErr, st.bump) := by
  unfold getMissedMessages
  rw [h1, h2]

/-- Characterization of a successful catch-up with a prior last id and a
decoded response: the result is the enriched filtered-reversed response and
the last id advances to the final element, when any. -/
theorem getMissedMessages_ok_main (env : Env) (st st2 : St) (lastId : Int)
    (resp msgs : List Message) (hlast : st.last_msg_id = some lastId)
    (hresp : env.messages = .ok resp)
    (hrun : getMissedMessages env st = (.ok msgs, st2)) :
    List.Forall₂ sameCore msgs
        ((resp.filter (fun m : Message => lastId < m.id)).reverse) ∧
      (msgs.getLast? = none → st2.last_msg_id = st.last_msg_id) ∧
      (∀ m, msgs.getLast? = some m → st2.last_msg_id = some m.id) := by
  rw [getMissedMessages_some env st lastId resp hlast hresp] at hrun
  cases he : enrichAll env
      ((resp.filter (fun m : Message => lastId < m.id)).reverse) st.bump with
  | mk eres st3 =>
    rw [he] at hrun
    cases eres with
    | error e => simp at hrun
    | ok missed =>
      simp only at hrun
      have hl3 : st3.last_msg_id = st.last_msg_id := by
        have h := enrichAll_snd_last env
          ((resp.filter (fun m : Message => lastId < m.id)).reverse) st.bump
        rw [he] at h
        exact h
      cases hg : missed.getLast? with
      | none =>
        rw [hg] at hrun
        cases hrun
        exact ⟨enrichAll_ok_core env _ _ st.bump st2 he,
          fun _ => hl3, fun m hm => by rw [hg] at hm; cases hm⟩
      | some lastMsg =>
        rw [hg] at hrun
        cases hrun
        refine ⟨enrichAll_ok_core env _ _ st.bump st3 he, ?_, ?_⟩
        · intro hnone; rw [hg] at hnone; cases hnone
        · intro m hm
          rw [hg] at hm
          cases hm
          rfl

/-- The filtered and reversed form of a newest-first response is oldest
first. -/
theorem missed_chain_ascending (resp msgs : List Message) (lastId : Int)
    (hsorted : List.Chain' (fun a b : Message => b.id < a.id) resp)
    (hcore : List.Forall₂ sameCore msgs
      ((resp.filter (fun m : Message => lastId < m.id)).reverse)) :
    List.Chain' (fun a b : Message => a.id < b.id) msgs := by
  haveI : IsTrans Message (fun a b : Message => b.id < a.id) :=
    ⟨fun a b c h1 h2 => lt_trans h2 h1⟩
  haveI : IsTrans Message (fun a b : Message => a.id < b.id) :=
    ⟨fun a b c h1 h2 => lt_trans h1 h2⟩
  have hpw : List.Pairwise (fun a b : Message => b.id < a.id) resp :=
    List.chain'_iff_pairwise.mp hsorted
  have hpwf : List.Pairwise (fun a b : Message => b.id < a.id)
      (resp.filter (fun m : Message => lastId < m.id)) :=
    List.Pairwise.sublist (List.filter_sublist resp) hpw
  have hpwrev : List.Pairwise (fun a b : Message => a.id < b.id)
      ((resp.filter (fun m : Message => lastId < m.id)).reverse) :=
    List.pairwise_reverse.mpr hpwf
  have hmap := forall₂_sameCore_map_id msgs _ hcore
  have h1 : List.Pairwise (fun a b : Int => a < b)
      (((resp.filter (fun m : Message => lastId < m.id)).reverse).map
        Message.id) :=
    List.pairwise_map.mpr hpwrev
  rw [← hmap] at h1
  exact List.chain'_iff_pairwise.mpr (List.pairwise_map.mp h1)

/-- In a strictly ascending message list, every identifier is bounded by the
final one. -/
theorem chain_id_le_getLast (msgs : List Message) (m : Message)
    (hchain : List.Chain' (fun a b : Message => a.id < b.id) msgs)
    (hg : msgs.getLast? = some m) : ∀ x ∈ msgs, x.id ≤ m.id := by
  induction msgs with
  | nil => cases hg
  | cons a t ih =>
    cases t with
    | nil =>
      cases hg
      intro x hx
      rcases List.mem_singleton.mp hx with rfl
      exact le_refl _
    | cons b t2 =>
      have hab : a.id < b.id := List.chain'_cons.mp hchain |>.1
      have hchain2 : List.Chain' (fun a b : Message => a.id < b.id) (b :: t2) :=
        (List.chain'_cons.mp hchain).2
      have hg2 : (b :: t2).getLast? = some m := by
        rw [← hg, List.getLast?_cons_cons]
      intro x hx
      rcases List.mem_cons.mp hx with rfl | hx2
      · exact le_of_lt (lt_of_lt_of_le hab
          (ih hchain2 hg2 b (List.mem_cons_self b t2)))
      · exact ih hchain2 hg2 x hx2

/-- Concrete message fixture for witnesses and counterexamples. -/
def wMsg (i appId : Int) : Message :=
  { id := i, appid := appId, text := "", title := "", priority := 0,
    date := "", app_img_filepath := none }

/-- Concrete oracle fixture: app list empty, the given bulk response, all
downloads succeed. -/
def wEnv (resp : List Message) : Env :=
  { apps := .ok [], messages := .ok resp,
    imgDownload := fun _ => .ok (), placeCacheFile := fun s => s }

/-- Concrete oracle fixture whose bulk query fails. -/
def wEnvFetchFail : Env :=
  { apps := .ok [], messages := .error (),
    imgDownload := fun _ => .ok (), placeCacheFile := fun s => s }

/-- Concrete client-state fixture. -/
def wSt (last : Option Int) : St :=
  { app_imgs := [], last_msg_id := last, fs := [], netCalls := 0 }

/-- C8: if no event has ever been delivered (the last-seen identifier is
unset), `get_missed_messages` returns the empty sequence immediately, with
the state untouched and in particular no network call issued. -/
theorem c8_fresh_process_empty_no_network (env : Env) (st : St)
    (h : st.last_msg_id = none) :
    getMissedMessages env st = (.ok [], st) ∧
      ((getMissedMessages env st).2).netCalls = st.netCalls :=
  ⟨getMissedMessages_none env st h, by rw [getMissedMessages_none env st h]⟩

/-- Witness for C8 at a concrete fresh state. -/
theorem c8_fresh_process_empty_no_network_witness :
    getMissedMessages (wEnv []) (wSt none) = (.ok [], wSt none) ∧
      ((getMissedMessages (wEnv []) (wSt none)).2).netCalls =
        (wSt none).netCalls :=
  c8_fresh_process_empty_no_network (wEnv []) (wSt none) rfl

/-- A failing catch-up leaves the last message id unchanged. -/
theorem getMissedMessages_error_last (env : Env) (st st2 : St) (e : GErr)
    (h : getMissedMessages env st = (.error e, st2)) :
    st2.last_msg_id = st.last_msg_id := by
  cases hl : st.last_msg_id with
  | none => rw [getMissedMessages_none env st hl] at h; simp at h
  | some lastId =>
    cases hm : env.messages with
    | error u =>
      rw [getMissedMessages_fetch_error env st lastId u hl hm] at h
      cases h
      exact hl
    | ok resp =>
      rw [getMissedMessages_some env st lastId resp hl hm] at h
      cases he : enrichAll env
          ((resp.filter (fun m : Message => lastId < m.id)).reverse)
          st.bump with
      | mk eres st3 =>
        rw [he] at h
        cases eres with
        | error e2 =>
          simp only at h
          cases h
          have h2 := enrichAll_snd_last env
            ((resp.filter (fun m : Message => lastId < m.id)).reverse) st.bump
          rw [he] at h2
          simp only at h2
          exact h2.trans hl
        | ok missed =>
          simp only at h
          cases hg : missed.getLast? <;> rw [hg] at h <;> simp at h

/-- C9: a failing catch-up, whatever its cause (bulk query, decoding, or the
resource resolution of some message), leaves the last-seen identifier
unchanged. -/
theorem c9_failed_catch_up_keeps_last_id (env : Env) (st st2 : St) (e : GErr)
    (h : getMissedMessages env st = (.error e, st2)) :
    st2.last_msg_id = st.last_msg_id :=
  getMissedMessages_error_last env st st2 e h

/-- Witness for C9 at a concrete failing bulk query. -/
theorem c9_failed_catch_up_keeps_last_id_witness :
    ((wSt (some 4)).bump).last_msg_id = (wSt (some 4)).last_msg_id :=
  c9_failed_catch_up_keeps_last_id wEnvFetchFail (wSt (some 4))
    ((wSt (some 4)).bump) .requestErr rfl

/-- C1: with stored last-seen identifier `lastId` and a newest-first bulk
response, `get_missed_messages` returns exactly the response messages with
identifier strictly greater than `lastId` (up to the locally filled image
filepath), reordered oldest-first. -/
theorem c1_catch_up_filters_newer_oldest_first (env : Env) (st st2 : St)
    (lastId : Int) (resp msgs : List Message)
    (hlast : st.last_msg_id = some lastId)
    (hresp : env.messages = .ok resp)
    (hsorted : List.Chain' (fun a b : Message => b.id < a.id) resp)
    (hrun : getMissedMessages env st = (.ok msgs, st2)) :
    List.Forall₂ sameCore msgs
        ((resp.filter (fun m : Message => lastId < m.id)).reverse) ∧
      List.Chain' (fun a b : Message => a.id < b.id) msgs := by
  have hmain :=
    getMissedMessages_ok_main env st st2 lastId resp msgs hlast hresp hrun
  exact ⟨hmain.1, missed_chain_ascending resp msgs lastId hsorted hmain.1⟩

/-- Witness for C1: last-seen 10 with catch-up batch of identifiers
12, 11, 10, 9 (newest first) yields exactly the messages 11 then 12. -/
theorem c1_catch_up_filters_newer_oldest_first_witness :
    List.Forall₂ sameCore [wMsg 11 1, wMsg 12 1]
        (([wMsg 12 1, wMsg 11 1, wMsg 10 1, wMsg 9 1].filter
          (fun m : Message => (10 : Int) < m.id)).reverse) ∧
      List.Chain' (fun a b : Message => a.id < b.id) [wMsg 11 1, wMsg 12 1] :=
  c1_catch_up_filters_newer_oldest_first
    (wEnv [wMsg 12 1, wMsg 11 1, wMsg 10 1, wMsg 9 1]) (wSt (some 10))
    ⟨[(1, none)], some 12, [], 2⟩ 10
    [wMsg 12 1, wMsg 11 1, wMsg 10 1, wMsg 9 1] [wMsg 11 1, wMsg 12 1]
    rfl rfl
    (by simp [wMsg, List.chain'_cons])
    rfl

/-- C4: when `get_missed_messages` succeeds on a newest-first response, an
empty result leaves the last-seen identifier unchanged, and a non-empty
result sets it to the identifier of the final returned message, which is the
maximum identifier of the returned batch. -/
theorem c4_last_id_becomes_batch_maximum (env : Env) (st st2 : St)
    (msgs : List Message)
    (hsorted : ∀ resp, env.messages = .ok resp →
      List.Chain' (fun a b : Message => b.id < a.id) resp)
    (hrun : getMissedMessages env st = (.ok msgs, st2)) :
    (msgs = [] → st2.last_msg_id = st.last_msg_id) ∧
      (∀ m, msgs.getLast? = some m → st2.last_msg_id = some m.id ∧
        ∀ x ∈ msgs, x.id ≤ m.id) := by
  cases hl : st.last_msg_id with
  | none =>
    rw [getMissedMessages_none env st hl] at hrun
    cases hrun
    exact ⟨fun _ => hl, fun m hm => by cases hm⟩
  | some lastId =>
    cases hm : env.messages with
    | error u =>
      rw [getMissedMessages_fetch_error env st lastId u hl hm] at hrun
      cases hrun
    | ok resp =>
      have hmain :=
        getMissedMessages_ok_main env st st2 lastId resp msgs hl hm hrun
      have hchain :=
        missed_chain_ascending resp msgs lastId (hsorted resp hm) hmain.1
      refine ⟨?_, ?_⟩
      · intro hnil; subst hnil; exact (hmain.2.1 rfl).trans hl
      · intro m hgm
        exact ⟨hmain.2.2 m hgm, chain_id_le_getLast msgs m hchain hgm⟩

/-- Witness for C4: catching up on response 12, 11, 10, 9 (newest first)
from last-seen 10 makes the last-seen identifier 12, the maximum of the
returned batch. -/
theorem c4_last_id_becomes_batch_maximum_witness :
    (([wMsg 11 1, wMsg 12 1] : List Message) = [] →
        ((⟨[(1, none)], some 12, [], 2⟩ : St)).last_msg_id =
          (wSt (some 10)).last_msg_id) ∧
      (∀ m, ([wMsg 11 1, wMsg 12 1] : List Message).getLast? = some m →
        ((⟨[(1, none)], some 12, [], 2⟩ : St)).last_msg_id = some m.id ∧
          ∀ x ∈ ([wMsg 11 1, wMsg 12 1] : List Message), x.id ≤ m.id) :=
  c4_last_id_becomes_batch_maximum
    (wEnv [wMsg 12 1, wMsg 11 1, wMsg 10 1, wMsg 9 1]) (wSt (some 10))
    ⟨[(1, none)], some 12, [], 2⟩ [wMsg 11 1, wMsg 12 1]
    (fun resp hresp => by
      cases hresp
      simp [wMsg, List.chain'_cons])
    rfl

/-- On a cache hit whose entry is either a no-resource marker or a path
whose file exists, `set_message_app_img` returns the entry and leaves the
whole state (request counter included) untouched. -/
theorem setMessageAppImg_hit (env : Env) (msg : Message) (st : St)
    (e : Option FPath) (h : st.app_imgs.lookup msg.appid = some e)
    (he : e = none ∨ ∃ p, e = some p ∧ p ∈ st.fs) :
    setMessageAppImg env msg st =
      (.ok { msg with app_img_filepath := e }, st) := by
  unfold setMessageAppImg
  rw [h]
  rcases he with rfl | ⟨p, rfl, hp⟩
  · rfl
  · simp only
    rw [if_pos hp]

/-- C7: resolving an app image twice issues at most one fetch episode: a
cache hit on a no-resource entry or on a path whose file exists performs
zero network calls and leaves the state untouched, and after any successful
miss resolution the second resolve of the same message is such a hit,
returning the same result with the state (request counter included)
unchanged. -/
theorem c7_second_resolve_zero_network_calls (env : Env) (msg : Message)
    (st : St) :
    (∀ e, st.app_imgs.lookup msg.appid = some e →
        (e = none ∨ ∃ p, e = some p ∧ p ∈ st.fs) →
        setMessageAppImg env msg st =
          (.ok { msg with app_img_filepath := e }, st)) ∧
      (st.app_imgs.lookup msg.appid = none →
        ∀ r st1, setMessageAppImg env msg st = (.ok r, st1) →
          setMessageAppImg env msg st1 = (.ok r, st1)) := by
  refine ⟨fun e h he => setMessageAppImg_hit env msg st e h he, ?_⟩
  intro hmiss r st1 h
  have hcm : cacheMissResolve env msg st = (.ok r, st1) := by
    unfold setMessageAppImg at h
    rw [hmiss] at h
    exact h
  obtain ⟨himgs, hfile, ⟨x, hx⟩, _⟩ := cacheMissResolve_ok env msg r st st1 hcm
  have hlookup : st1.app_imgs.lookup msg.appid = some r.app_img_filepath := by
    rw [himgs]
    simp [List.lookup]
  have h2 := setMessageAppImg_hit env msg st1 r.app_img_filepath hlookup hfile
  rw [h2]
  subst hx
  rfl

/-- Concrete app metadata fixture. -/
def wApp (i : Int) (img : String) : AppInfo :=
  { description := "", id := i, image := img, internal := false, name := "",
    token := "" }

/-- Concrete oracle whose only app reports an empty image field. -/
def wEnvEmptyImg : Env :=
  { apps := .ok [wApp 1 ""], messages := .ok [],
    imgDownload := fun _ => .ok (), placeCacheFile := fun s => s }

/-- Witness for C7: after resolving an app whose metadata reports an empty
image field, a second resolve performs zero network calls and returns the
cached no-resource outcome. -/
theorem c7_second_resolve_zero_network_calls_witness :
    setMessageAppImg wEnvEmptyImg (wMsg 7 1) ⟨[(1, none)], none, [], 1⟩ =
      (.ok (wMsg 7 1), ⟨[(1, none)], none, [], 1⟩) :=
  (c7_second_resolve_zero_network_calls wEnvEmptyImg (wMsg 7 1)
      (wSt none)).2 rfl (wMsg 7 1) ⟨[(1, none)], none, [], 1⟩ rfl

/-- C5 (amended): when the cached path for a message's app id no longer
exists on disk and the companion API is reachable, resolution does not fail:
it re-queries the app metadata (at least one new network call) and, when the
app still reports an image, re-downloads the file to the previously cached
path and returns it; when the app reports no image it returns none.  In both
cases the in-memory cache entry is left unchanged rather than re-recorded
as a cache miss would record it. -/
theorem c5_stale_cached_file_redownload (env : Env) (msg : Message) (st : St)
    (p : FPath) (apps : List AppInfo)
    (hc : st.app_imgs.lookup msg.appid = some (some p))
    (hf : p ∉ st.fs)
    (ha : env.apps = .ok apps)
    (hd : ∀ u, env.imgDownload u = .ok ()) :
    ∃ r st2, setMessageAppImg env msg st = (.ok r, st2) ∧
      st2.app_imgs = st.app_imgs ∧
      st.netCalls < st2.netCalls ∧
      ((r.app_img_filepath = some p ∧ p ∈ st2.fs) ∨
        r.app_img_filepath = none) := by
  unfold setMessageAppImg
  rw [hc]
  simp only
  rw [if_neg hf]
  unfold downloadAppImg appImgUrl
  rw [ha]
  simp only
  cases hfind : apps.find? (fun a => a.id = msg.appid) with
  | none =>
    exact ⟨_, _, rfl, rfl, Nat.lt_succ_self _, Or.inr rfl⟩
  | some a =>
    simp only
    by_cases himg : a.image = ""
    · rw [if_pos himg]
      exact ⟨_, _, rfl, rfl, Nat.lt_succ_self _, Or.inr rfl⟩
    · rw [if_neg himg]
      simp only
      rw [hd a.image]
      refine ⟨_, _, rfl, rfl, ?_, Or.inl ⟨rfl, List.mem_cons_self _ _⟩⟩
      exact Nat.lt_of_lt_of_le (Nat.lt_succ_self _) (Nat.le_succ _)

/-- Concrete stale state: the cache maps app 1 to a path that is not on
disk. -/
def wStStale : St :=
  { app_imgs := [(1, some "app.png")], last_msg_id := none, fs := [],
    netCalls := 0 }

/-- Concrete oracle whose only app reports the image `icons/app.png`. -/
def wEnvWithImg : Env :=
  { apps := .ok [wApp 1 "icons/app.png"], messages := .ok [],
    imgDownload := fun _ => .ok (), placeCacheFile := fun s => s }

/-- Witness for C5: a stale cache entry with a reachable server resolves
without failing, re-downloading the image. -/
theorem c5_stale_cached_file_redownload_witness :
    ∃ r st2,
      setMessageAppImg wEnvWithImg (wMsg 7 1) wStStale = (.ok r, st2) ∧
        st2.app_imgs = wStStale.app_imgs ∧
        wStStale.netCalls < st2.netCalls ∧
        ((r.app_img_filepath = some "app.png" ∧ "app.png" ∈ st2.fs) ∨
          r.app_img_filepath = none) :=
  c5_stale_cached_file_redownload wEnvWithImg (wMsg 7 1) wStStale "app.png"
    [wApp 1 "icons/app.png"] rfl (List.not_mem_nil _) rfl (fun _ => rfl)

/-- Counterexample to C5 as stated: with a stale cache entry for app 1 and
metadata now reporting an empty image field, resolution succeeds but the
cache entry is left exactly as it was (still the stale path) instead of
being updated as the cache-miss treatment would record it (a no-resource
marker). -/
theorem c5_stale_entry_not_updated_counterexample :
    setMessageAppImg wEnvEmptyImg (wMsg 7 1) wStStale =
        (.ok (wMsg 7 1), { wStStale with netCalls := 1 }) ∧
      (setMessageAppImg wEnvEmptyImg (wMsg 7 1)
          { wStStale with app_imgs := [] }).2.app_imgs = [(1, none)] ∧
      ({ wStStale with netCalls := 1 } : St).app_imgs.lookup 1 =
        some (some "app.png") ∧
      some (some ("app.png" : FPath)) ≠ some (none : Option FPath) :=
  ⟨rfl, rfl, rfl, by decide⟩

/-- When one loop iteration returns a message, the last message id has just
been set to that message's id. -/
theorem getMessageStep_ok_last (env : Env) (inp : LoopInput) (st st2 : St)
    (m : Message) (h : getMessageStep env inp st = (.done (.ok m), st2)) :
    st2.last_msg_id = some m.id := by
  unfold getMessageStep at h
  cases hp : inp.poll with
  | error k =>
    rw [hp] at h
    simp only at h
    by_cases hk : k = ErrKind.interrupted
    · rw [if_pos hk] at h; cases h
    · rw [if_neg hk] at h; cases h
  | ok b =>
    rw [hp] at h
    cases b with
    | false => cases h
    | true =>
      simp only at h
      cases hr : inp.read with
      | error e =>
        rw [hr] at h
        cases e with
        | protocol pe => cases pe with
          | resetWithoutClosingHandshake => simp at h
          | otherProto n => simp at h
        | otherWs n => simp at h
      | ok wsMsg =>
        rw [hr] at h
        cases wsMsg with
        | text dec =>
          simp only at h
          cases dec with
          | error u => cases h
          | ok msg =>
            simp only at h
            cases hs : setMessageAppImg env msg st with
            | mk res st1 =>
              rw [hs] at h
              cases res with
              | error e => cases h
              | ok m2 => cases h; rfl
        | ping =>
          simp only at h
          cases hf : inp.flush with
          | error e => rw [hf] at h; cases h
          | ok u => rw [hf] at h; cases h
        | otherFrame n => cases h

/-- A live-read phase that neither delivers a message nor errors through the
enrichment keeps the whole state when continuing, and in all non-delivery
outcomes keeps the last message id. -/
theorem getMessage_not_ok_last (env : Env) (inps : List LoopInput)
    (st st2 : St) (r : Option (Except GErr Message))
    (h : getMessage env inps st = (r, st2))
    (hr : ∀ m, r ≠ some (.ok m)) : st2.last_msg_id = st.last_msg_id := by
  induction inps generalizing st with
  | nil => unfold getMessage at h; cases h; rfl
  | cons inp rest ih =>
    unfold getMessage at h
    cases hs : getMessageStep env inp st with
    | mk out st1 =>
      rw [hs] at h
      cases out with
      | next =>
        have hlast : st1.last_msg_id = st.last_msg_id := by
          unfold getMessageStep at hs
          cases hp : inp.poll with
          | error k =>
            rw [hp] at hs
            simp only at hs
            by_cases hk : k = ErrKind.interrupted
            · rw [if_pos hk] at hs; cases hs
            · rw [if_neg hk] at hs; cases hs
          | ok b =>
            rw [hp] at hs
            cases b with
            | false => cases hs; rfl
            | true =>
              simp only at hs
              cases hrd : inp.read with
              | error e =>
                rw [hrd] at hs
                cases e with
                | protocol pe => cases pe with
                  | resetWithoutClosingHandshake => simp at hs
                  | otherProto n => simp at hs
                | otherWs n => simp at hs
              | ok wsMsg =>
                rw [hrd] at hs
                cases wsMsg with
                | text dec =>
                  simp only at hs
                  cases dec with
                  | error u => cases hs
                  | ok msg =>
                    simp only at hs
                    cases hsm : setMessageAppImg env msg st with
                    | mk res st3 =>
                      rw [hsm] at hs
                      cases res with
                      | error e => cases hs
                      | ok m2 => cases hs
                | ping =>
                  simp only at hs
                  cases hfl : inp.flush with
                  | error e => rw [hfl] at hs; cases hs
                  | ok u => rw [hfl] at hs; cases hs; rfl
                | otherFrame n => cases hs
        rw [ih st1 h, hlast]
      | done r0 =>
        cases h
        -- the step ended the loop with a non-delivery outcome
        unfold getMessageStep at hs
        cases hp : inp.poll with
        | error k =>
          rw [hp] at hs
          simp only at hs
          by_cases hk : k = ErrKind.interrupted
          · rw [if_pos hk] at hs; cases hs; rfl
          · rw [if_neg hk] at hs; cases hs; rfl
        | ok b =>
          rw [hp] at hs
          cases b with
          | false => cases hs
          | true =>
            simp only at hs
            cases hrd : inp.read with
            | error e =>
              rw [hrd] at hs
              cases e with
              | protocol pe => cases pe with
                | resetWithoutClosingHandshake => simp only at hs; cases hs; rfl
                | otherProto n => simp only at hs; cases hs; rfl
              | otherWs n => simp only at hs; cases hs; rfl
            | ok wsMsg =>
              rw [hrd] at hs
              cases wsMsg with
              | text dec =>
                simp only at hs
                cases dec with
                | error u => cases hs; rfl
                | ok msg =>
                  simp only at hs
                  cases hsm : setMessageAppImg env msg st with
                  | mk res st3 =>
                    rw [hsm] at hs
                    cases res with
                    | error e =>
                      cases hs
                      have := setMessageAppImg_snd_last env msg st
                      rw [hsm] at this
                      exact this
                    | ok m2 =>
                      cases hs
                      exact absurd rfl (hr m2)
              | ping =>
                simp only at hs
                cases hfl : inp.flush with
                | error e => rw [hfl] at hs; cases hs; rfl
                | ok u => rw [hfl] at hs; cases hs
              | otherFrame n => cases hs; rfl

/-- A live-read phase that delivers a message leaves the last message id set
to that message's id. -/
theorem getMessage_ok_last (env : Env) (inps : List LoopInput) (st st2 : St)
    (m : Message) (h : getMessage env inps st = (some (.ok m), st2)) :
    st2.last_msg_id = some m.id := by
  induction inps generalizing st with
  | nil => unfold getMessage at h; cases h
  | cons inp rest ih =>
    unfold getMessage at h
    cases hs : getMessageStep env inp st with
    | mk out st1 =>
      rw [hs] at h
      cases out with
      | next => exact ih st1 h
      | done r0 =>
        cases h
        exact getMessageStep_ok_last env inp st st2 m hs

/-- C10: every successful `get_message` call sets the last-seen identifier
to exactly the returned message's id, unconditionally; in particular a text
frame whose id is not compared against anything is enriched, delivered, and
becomes the new last-seen identifier even when smaller than the current
one. -/
theorem c10_delivery_always_overwrites_last_id (env : Env) :
    (∀ inps st st2 m, getMessage env inps st = (some (.ok m), st2) →
        st2.last_msg_id = some m.id) ∧
      (∀ inp inps st msg, inp.poll = .ok true →
        inp.read = .ok (.text (.ok msg)) →
        st.app_imgs.lookup msg.appid = some none →
        getMessage env (inp :: inps) st =
          (some (.ok { msg with app_img_filepath := none }),
            { st with last_msg_id := some msg.id })) := by
  constructor
  · exact fun inps st st2 m h => getMessage_ok_last env inps st st2 m h
  · intro inp inps st msg hp hrd hl
    unfold getMessage getMessageStep
    rw [hp, hrd]
    simp only
    rw [setMessageAppImg_hit env msg st none hl (Or.inl rfl)]

/-- Witness for C10: a live frame with id 5 is delivered and becomes the
last-seen identifier even though the previous last-seen identifier is 99. -/
theorem c10_delivery_always_overwrites_last_id_witness :
    getMessage (wEnv []) [⟨.ok true, .ok (.text (.ok (wMsg 5 1))), .ok ()⟩]
        ⟨[(1, none)], some 99, [], 0⟩ =
      (some (.ok { wMsg 5 1 with app_img_filepath := none }),
        { (⟨[(1, none)], some 99, [], 0⟩ : St) with
            last_msg_id := some (wMsg 5 1).id }) :=
  (c10_delivery_always_overwrites_last_id (wEnv [])).2
    ⟨.ok true, .ok (.text (.ok (wMsg 5 1))), .ok ()⟩ []
    ⟨[(1, none)], some 99, [], 0⟩ (wMsg 5 1) rfl rfl rfl

/-- C3: `get_message` raises the distinguished reconnect signal exactly for
an interrupted readiness wait or a peer-reset-without-closing-handshake read
failure; every other readiness-wait or read failure is propagated as the
corresponding ordinary error, and whatever outcome ends the loop is the
outcome of its deciding iteration. -/
theorem c3_needs_reconnect_exactly_for_interrupt_or_reset (env : Env) :
    (∀ inp st,
      (∃ e st2, getMessageStep env inp st = (.done (.error e), st2) ∧
          e.isNeedsReconnect = true) ↔
        (inp.poll = .error .interrupted ∨
          (inp.poll = .ok true ∧
            inp.read = .error (.protocol .resetWithoutClosingHandshake)))) ∧
      (∀ inp st k, inp.poll = .error k → k ≠ .interrupted →
        getMessageStep env inp st = (.done (.error (.pollErr k)), st)) ∧
      (∀ inp st e, inp.poll = .ok true → inp.read = .error e →
        e ≠ .protocol .resetWithoutClosingHandshake →
        getMessageStep env inp st = (.done (.error (.wsErr e)), st)) ∧
      (∀ inps st r st2, getMessage env inps st = (some r, st2) →
        ∃ inp ∈ inps, ∃ st1, getMessageStep env inp st1 = (.done r, st2)) := by
  refine ⟨fun inp st => ⟨?_, ?_⟩, fun inp st k hp hk => ?_,
    fun inp st e hp hrd hne => ?_, fun inps => ?_⟩
  · rintro ⟨e, st2, hstep, hnr⟩
    unfold getMessageStep at hstep
    cases hp : inp.poll with
    | error k =>
      rw [hp] at hstep
      simp only at hstep
      by_cases hk : k = ErrKind.interrupted
      · subst hk
        exact Or.inl rfl
      · rw [if_neg hk] at hstep
        cases hstep
        exact Bool.noConfusion hnr
    | ok b =>
      rw [hp] at hstep
      cases b with
      | false => simp only at hstep; cases hstep
      | true =>
        simp only at hstep
        cases hrd : inp.read with
        | error e2 =>
          rw [hrd] at hstep
          cases e2 with
          | protocol pe =>
            cases pe with
            | resetWithoutClosingHandshake => exact Or.inr ⟨rfl, rfl⟩
            | otherProto n =>
              simp only at hstep
              cases hstep
              exact Bool.noConfusion hnr
          | otherWs n =>
            simp only at hstep
            cases hstep
            exact Bool.noConfusion hnr
        | ok wsMsg =>
          rw [hrd] at hstep
          cases wsMsg with
          | text dec =>
            simp only at hstep
            cases dec with
            | error u =>
              cases hstep
              exact Bool.noConfusion hnr
            | ok msg =>
              simp only at hstep
              cases hsm : setMessageAppImg env msg st with
              | mk res st3 =>
                rw [hsm] at hstep
                cases res with
                | error e3 =>
                  cases hstep
                  rw [setMessageAppImg_error_not_reconnect env msg st st2 e
                    hsm] at hnr
                  cases hnr
                | ok m2 => cases hstep
          | ping =>
            simp only at hstep
            cases hfl : inp.flush with
            | error e3 =>
              rw [hfl] at hstep
              cases hstep
              exact Bool.noConfusion hnr
            | ok u => rw [hfl] at hstep; cases hstep
          | otherFrame n =>
            cases hstep
            exact Bool.noConfusion hnr
  · rintro (hp | ⟨hp, hrd⟩)
    · refine ⟨.reconnectPoll .interrupted, st, ?_, rfl⟩
      unfold getMessageStep
      rw [hp]
      simp
    · refine ⟨.reconnectProto .resetWithoutClosingHandshake, st, ?_, rfl⟩
      unfold getMessageStep
      rw [hp, hrd]
  · unfold getMessageStep
    rw [hp]
    simp only
    rw [if_neg hk]
  · unfold getMessageStep
    rw [hp, hrd]
    cases e with
    | protocol pe =>
      cases pe with
      | resetWithoutClosingHandshake => exact absurd rfl hne
      | otherProto n => rfl
    | otherWs n => rfl
  · induction inps with
    | nil => intro st r st2 h; unfold getMessage at h; cases h
    | cons inp rest ih =>
      intro st r st2 h
      unfold getMessage at h
      cases hs : getMessageStep env inp st with
      | mk out st1 =>
        rw [hs] at h
        cases out with
        | next =>
          obtain ⟨inp2, hmem, st3, hstep⟩ := ih st1 r st2 h
          exact ⟨inp2, List.mem_cons_of_mem _ hmem, st3, hstep⟩
        | done r0 =>
          cases h
          exact ⟨inp, List.mem_cons_self _ _, st, hs⟩

/-- Witness for C3: an interrupted readiness wait ends the iteration with a
reconnect-classified error, and a plain poll failure of another kind is
propagated unchanged. -/
theorem c3_needs_reconnect_exactly_for_interrupt_or_reset_witness :
    (∃ e st2,
        getMessageStep (wEnv []) ⟨.error .interrupted, .ok .ping, .ok ()⟩
            (wSt none) = (.done (.error e), st2) ∧
          e.isNeedsReconnect = true) ∧
      getMessageStep (wEnv []) ⟨.error (.otherKind 0), .ok .ping, .ok ()⟩
          (wSt none) =
        (.done (.error (.pollErr (.otherKind 0))), wSt none) :=
  ⟨((c3_needs_reconnect_exactly_for_interrupt_or_reset (wEnv [])).1
      ⟨.error .interrupted, .ok .ping, .ok ()⟩ (wSt none)).mpr (Or.inl rfl),
    (c3_needs_reconnect_exactly_for_interrupt_or_reset (wEnv [])).2.1
      ⟨.error (.otherKind 0), .ok .ping, .ok ()⟩ (wSt none) (.otherKind 0)
      rfl (by decide)⟩

/-- Delays slept before the first success, for any number of leading
failures: exactly the backoff sequence. -/
theorem connectRun_replicate (k : Nat) (n : Nat) (rest : List Bool) :
    connectRun (List.replicate k false ++ true :: rest) n =
      some ((List.range k).map (fun i => backoffDelay (n + i))) := by
  induction k generalizing n with
  | zero => simp [connectRun]
  | succ k ih =>
    rw [List.replicate_succ, List.cons_append]
    simp only [connectRun, Bool.false_eq_true, if_false]
    rw [ih (n + 1)]
    rw [List.range_succ_eq_map, List.map_cons, List.map_map]
    simp only [Option.map_some', Function.comp]
    refine congrArg some ?_
    congr 1
    exact List.map_congr_left (fun i _ => congrArg backoffDelay (by omega))

/-- C6: the connect retry policy sleeps 250 ms before the first retry, then
multiplies the previous delay by 1.5 capping at 60 s; a success on the first
attempt incurs no delay; after any number of failures the delays slept are
exactly the backoff sequence; and as long as every attempt fails the loop
does not end. -/
theorem c6_connect_retry_backoff_policy :
    backoffDelay 0 = 250 ∧
      (∀ n, backoffDelay (n + 1) = min (backoffDelay n * (3 / 2)) 60000) ∧
      (∀ n, backoffDelay n ≤ 60000) ∧
      (∀ rest, connectRun (true :: rest) 0 = some []) ∧
      (∀ k rest, connectRun (List.replicate k false ++ true :: rest) 0 =
        some ((List.range k).map backoffDelay)) ∧
      (∀ k, connectRun (List.replicate k false) 0 = none) := by
  refine ⟨rfl, fun n => rfl, ?_, fun rest => rfl, ?_, ?_⟩
  · intro n
    cases n with
    | zero => norm_num [backoffDelay]
    | succ n => exact min_le_right _ _
  · intro k rest
    rw [connectRun_replicate k 0 rest]
    exact congrArg some
      (List.map_congr_left (fun i _ => congrArg backoffDelay (Nat.zero_add i)))
  · intro k
    have hgen : ∀ n, connectRun (List.replicate k false) n = none := by
      induction k with
      | zero => intro n; rfl
      | succ k ih =>
        intro n
        simp [List.replicate_succ, connectRun, ih (n + 1)]
    exact hgen 0

/-- The element named by `getLast?` is a member of the list. -/
theorem mem_of_getLast?_eq {α : Type} {l : List α} {a : α}
    (h : l.getLast? = some a) : a ∈ l := by
  obtain ⟨ys, rfl⟩ := List.getLast?_eq_some_iff.mp h
  simp

/-- A strictly ascending message list has strictly ascending identifiers. -/
theorem chain_map_id (msgs : List Message)
    (h : List.Chain' (fun a b : Message => a.id < b.id) msgs) :
    List.Chain' (fun a b : Int => a < b) (msgs.map Message.id) := by
  haveI : IsTrans Message (fun a b : Message => a.id < b.id) :=
    ⟨fun a b c h1 h2 => lt_trans h1 h2⟩
  haveI : IsTrans Int (fun a b : Int => a < b) := ⟨fun a b c => lt_trans⟩
  exact List.chain'_iff_pairwise.mpr
    (List.pairwise_map.mpr (List.chain'_iff_pairwise.mp h))

/-- Every identifier surviving the catch-up filter exceeds the last-seen
one. -/
theorem filtered_ids_above (resp : List Message) (lastId : Int) :
    ∀ d ∈ ((resp.filter (fun m : Message => lastId < m.id)).reverse).map
        Message.id, lastId < d := by
  intro d hd
  obtain ⟨m, hm, rfl⟩ := List.mem_map.mp hd
  have hm2 := List.mem_reverse.mp hm
  have := (List.mem_filter.mp hm2).2
  exact of_decide_eq_true this

/-- Assumption under which the delivery stream is well ordered: every
catch-up response is newest first, and every frame delivered by a live
phase carries an identifier above the last-seen one current when the phase
starts. -/
def GoodStep : SessionStep → St → Prop
  | .catchUp env, _ => ∀ resp, env.messages = .ok resp →
      List.Chain' (fun a b : Message => b.id < a.id) resp
  | .live env inps, st => ∀ m, (getMessage env inps st).1 = some (.ok m) →
      ∀ l, st.last_msg_id = some l → l < m.id

/-- A trace whose every phase satisfies `GoodStep` in the state it actually
runs in. -/
def GoodTrace : List SessionStep → St → Prop
  | [], _ => True
  | s :: rest, st => GoodStep s st ∧ GoodTrace rest (runStep s st).2

/-- Invariant of one session phase: deliveries are strictly ascending, all
above the incoming last-seen identifier; a silent phase keeps the last-seen
identifier and a delivering phase leaves it at the final delivered
identifier. -/
theorem runStep_inv (s : SessionStep) (st : St) (h : GoodStep s st) :
    List.Chain' (fun a b : Int => a < b) (runStep s st).1 ∧
      (∀ d ∈ (runStep s st).1, ∀ l, st.last_msg_id = some l → l < d) ∧
      ((runStep s st).1 = [] →
        ((runStep s st).2).last_msg_id = st.last_msg_id) ∧
      (∀ d, (runStep s st).1.getLast? = some d →
        ((runStep s st).2).last_msg_id = some d) := by
  cases s with
  | catchUp env =>
    cases hr : getMissedMessages env st with
    | mk res st2 =>
      cases res with
      | error e =>
        have hrs : runStep (SessionStep.catchUp env) st = ([], st2) := by
          simp only [runStep]; rw [hr]
        rw [hrs]
        exact ⟨List.chain'_nil, fun d hd => absurd hd (List.not_mem_nil d),
          fun _ => getMissedMessages_error_last env st st2 e hr,
          fun d hd => by cases hd⟩
      | ok msgs =>
        have hrs : runStep (SessionStep.catchUp env) st =
            (msgs.map (fun m => m.id), st2) := by
          simp only [runStep]; rw [hr]
        rw [hrs]
        simp only
        cases hl : st.last_msg_id with
        | none =>
          rw [getMissedMessages_none env st hl] at hr
          cases hr
          exact ⟨List.chain'_nil, fun d hd => absurd hd (List.not_mem_nil d),
            fun _ => hl, fun d hd => by cases hd⟩
        | some lastId =>
          cases hm : env.messages with
          | error u =>
            rw [getMissedMessages_fetch_error env st lastId u hl hm] at hr
            cases hr
          | ok resp =>
            have hmain := getMissedMessages_ok_main env st st2 lastId resp
              msgs hl hm hr
            have hchain := missed_chain_ascending resp msgs lastId
              (h resp hm) hmain.1
            have hmap := forall₂_sameCore_map_id msgs _ hmain.1
            refine ⟨chain_map_id msgs hchain, ?_, ?_, ?_⟩
            · intro d hd l hll
              cases hll
              rw [show (List.map (fun m : Message => m.id) msgs) =
                  List.map Message.id msgs from rfl, hmap] at hd
              exact filtered_ids_above resp lastId d hd
            · intro hnil
              rw [List.map_eq_nil_iff] at hnil
              subst hnil
              exact (hmain.2.1 rfl).trans hl
            · intro d hd
              rw [show (List.map (fun m : Message => m.id) msgs) =
                  List.map Message.id msgs from rfl, List.getLast?_map] at hd
              cases hgl : msgs.getLast? with
              | none => rw [hgl] at hd; cases hd
              | some m =>
                rw [hgl] at hd
                cases hd
                exact hmain.2.2 m hgl
  | live env inps =>
    cases hg : getMessage env inps st with
    | mk res st2 =>
      cases res with
      | none =>
        have hrs : runStep (SessionStep.live env inps) st = ([], st2) := by
          simp only [runStep]; rw [hg]
        rw [hrs]
        exact ⟨List.chain'_nil, fun d hd => absurd hd (List.not_mem_nil d),
          fun _ => getMessage_not_ok_last env inps st st2 none hg
            (fun m => Option.noConfusion),
          fun d hd => by cases hd⟩
      | some r =>
        cases r with
        | error e =>
          have hrs : runStep (SessionStep.live env inps) st = ([], st2) := by
            simp only [runStep]; rw [hg]
          rw [hrs]
          refine ⟨List.chain'_nil, fun d hd => absurd hd (List.not_mem_nil d),
            fun _ => getMessage_not_ok_last env inps st st2
              (some (.error e)) hg ?_, fun d hd => by cases hd⟩
          intro m hm
          cases hm
        | ok m =>
          have hrs : runStep (SessionStep.live env inps) st = ([m.id], st2) := by
            simp only [runStep]; rw [hg]
          rw [hrs]
          simp only
          refine ⟨List.chain'_singleton _, ?_, ?_, ?_⟩
          · intro d hd l hll
            rcases List.mem_singleton.mp hd with rfl
            exact h m (by rw [hg]) l hll
          · intro h2; cases h2
          · intro d hd
            cases hd
            exact getMessage_ok_last env inps st st2 m hg

/-- Invariant of a whole session trace satisfying `GoodStep` throughout:
deliveries are strictly ascending, all above the initial last-seen
identifier; a silent trace keeps the last-seen identifier and a delivering
trace leaves it at the final delivered identifier. -/
theorem runSession_inv (trace : List SessionStep) (st : St)
    (h : GoodTrace trace st) :
    List.Chain' (fun a b : Int => a < b) (runSession trace st).1 ∧
      (∀ d ∈ (runSession trace st).1, ∀ l, st.last_msg_id = some l → l < d) ∧
      ((runSession trace st).1 = [] →
        ((runSession trace st).2).last_msg_id = st.last_msg_id) ∧
      (∀ d, (runSession trace st).1.getLast? = some d →
        ((runSession trace st).2).last_msg_id = some d) := by
  induction trace generalizing st with
  | nil =>
    exact ⟨List.chain'_nil, fun d hd => absurd hd (List.not_mem_nil d),
      fun _ => rfl, fun d hd => by cases hd⟩
  | cons s rest ih =>
    obtain ⟨hstep, hrest⟩ := h
    cases hr : runStep s st with
    | mk ds1 st1 =>
      have hA := runStep_inv s st hstep
      rw [hr] at hA
      rw [hr] at hrest
      have hB := ih st1 hrest
      cases hs : runSession rest st1 with
      | mk ds2 st2 =>
        rw [hs] at hB
        have hrun : runSession (s :: rest) st = (ds1 ++ ds2, st2) := by
          simp only [runSession]
          rw [hr, hs]
        rw [hrun]
        simp only at hA hB ⊢
        have hcross : ∀ x ∈ ds1.getLast?, ∀ y ∈ ds2.head?,
            (fun a b : Int => a < b) x y := by
          intro x hx y hy
          have hx2 : ds1.getLast? = some x := hx
          have hy2 : y ∈ ds2 := List.mem_of_mem_head? hy
          exact hB.2.1 y hy2 x (hA.2.2.2 x hx2)
        refine ⟨List.Chain'.append hA.1 hB.1 hcross, ?_, ?_, ?_⟩
        · intro d hd l hl
          rcases List.mem_append.mp hd with hd1 | hd2
          · exact hA.2.1 d hd1 l hl
          · cases hds1 : ds1.getLast? with
            | none =>
              rw [List.getLast?_eq_none_iff] at hds1
              subst hds1
              exact hB.2.1 d hd2 l (by rw [hA.2.2.1 rfl]; exact hl)
            | some x =>
              have hst1 : st1.last_msg_id = some x := hA.2.2.2 x hds1
              have hlx : l < x :=
                hA.2.1 x (mem_of_getLast?_eq hds1) l hl
              exact lt_trans hlx (hB.2.1 d hd2 x hst1)
        · intro hnil
          rcases List.append_eq_nil.mp hnil with ⟨h1, h2⟩
          subst h1
          subst h2
          rw [hB.2.2.1 rfl]
          exact hA.2.2.1 rfl
        · intro d hd
          rw [List.getLast?_append] at hd
          cases hds2 : ds2.getLast? with
          | some y =>
            rw [hds2] at hd
            cases hd
            exact hB.2.2.2 d hds2
          | none =>
            rw [hds2] at hd
            simp only [Option.none_or] at hd
            rw [List.getLast?_eq_none_iff] at hds2
            subst hds2
            rw [hB.2.2.1 rfl]
            exact hA.2.2.2 d hd

/-- Loop input carrying one decoded text frame. -/
def wInp (msg : Message) : LoopInput :=
  { poll := .ok true, read := .ok (.text (.ok msg)), flush := .ok () }

/-- Oracle for the session counterexample and witness: one recent message
with identifier 5, no app images. -/
def c2Env : Env :=
  { apps := .ok [], messages := .ok [wMsg 5 1],
    imgDownload := fun _ => .ok (), placeCacheFile := fun s => s }

/-- Session trace in which the frame buffered on the socket while the
catch-up query ran carries the same event the catch-up already delivered. -/
def c2Trace : List SessionStep :=
  [SessionStep.catchUp c2Env, SessionStep.live c2Env [wInp (wMsg 5 1)]]

/-- Initial state of the session counterexample: last-seen identifier 4. -/
def c2St : St :=
  { app_imgs := [], last_msg_id := some 4, fs := [], netCalls := 0 }

/-- Counterexample to C2 as stated: a trace without any server-side
identifier reuse (the catch-up response and the live frame carry the same
single event, id 5) on which the delivered identifiers are 5, 5 — a
duplicate delivery, not strictly increasing.  The live-read path performs no
filtering, so an event both present in the catch-up response and already
buffered on the socket is delivered twice within one client lifetime. -/
theorem c2_duplicate_delivery_counterexample :
    ¬ (∀ (trace : List SessionStep) (st : St), NoIdReuse trace →
        List.Chain' (fun a b : Int => a < b) (runSession trace st).1) := by
  intro hclaim
  have hnr : NoIdReuse c2Trace := by
    intro m1 h1 m2 h2 hid
    have h1w : m1 ∈ [wMsg 5 1, wMsg 5 1] := h1
    have h2w : m2 ∈ [wMsg 5 1, wMsg 5 1] := h2
    rcases List.mem_cons.mp h1w with rfl | h1b
    · rcases List.mem_cons.mp h2w with rfl | h2b
      · rfl
      · rcases List.mem_singleton.mp h2b with rfl
        rfl
    · rcases List.mem_singleton.mp h1b with rfl
      rcases List.mem_cons.mp h2w with rfl | h2b
      · rfl
      · rcases List.mem_singleton.mp h2b with rfl
        rfl
  have hch := hclaim c2Trace c2St hnr
  rw [show (runSession c2Trace c2St).1 = [5, 5] from rfl] at hch
  exact absurd (List.chain'_cons.mp hch).1 (lt_irrefl 5)

/-- C2 (amended): delivered identifiers are strictly increasing over a
session provided every catch-up response is newest first and every frame
delivered by the live-read path carries an identifier strictly above the
last-seen identifier current when that live phase starts; without the
latter assumption the live path re-delivers stale identifiers, as it
performs no comparison. -/
theorem c2_strictly_increasing_for_good_traces (trace : List SessionStep)
    (st : St) (h : GoodTrace trace st) :
    List.Chain' (fun a b : Int => a < b) (runSession trace st).1 :=
  (runSession_inv trace st h).1

/-- Witness for C2 (amended): catch-up over the single recent event 5 from
last-seen 4, followed by a live frame 6, delivers 5 then 6. -/
theorem c2_strictly_increasing_for_good_traces_witness :
    List.Chain' (fun a b : Int => a < b)
      (runSession
        [SessionStep.catchUp c2Env, SessionStep.live c2Env [wInp (wMsg 6 1)]]
        c2St).1 :=
  c2_strictly_increasing_for_good_traces
    [SessionStep.catchUp c2Env, SessionStep.live c2Env [wInp (wMsg 6 1)]]
    c2St
    (by
      refine ⟨?_, ?_, trivial⟩
      · intro resp hresp
        cases hresp
        exact List.chain'_singleton _
      · intro m hm l hl
        have hm2 : some (Except.ok { wMsg 6 1 with app_img_filepath := none }) =
            some (Except.ok m) := hm
        cases hm2
        have hl2 : some (5 : Int) = some l := hl
        cases hl2
        decide)
